import Mathlib

/-!
Verification development for the MOOS spectrometer acquisition program
(`moos.cpp`).  The C++ code is shallowly embedded: `double` values are
modelled as exact rationals (`ℚ`), C++ `unsigned` arithmetic is modelled
on `Nat` with an explicit wrap-around subtraction `usub` where the source
can underflow, and out-of-bounds `std::vector` accesses (undefined
behaviour in C++) are modelled by `Option`, with `none` meaning the
program performed an out-of-bounds access.  `exit(1)` is modelled by
`Except` with the exit code as the error value.
-/

/-- C++ `double`, modelled as an exact rational number. -/
abbrev D : Type := Rat

/-- C++ `unsigned` subtraction `a - b` with wrap-around modulo `2^32`
(both operands are assumed `< 2^32`, as every `unsigned` value is). -/
def usub (a b : Nat) : Nat := (a + 2 ^ 32 - b) % 2 ^ 32

/-- Inner loop of the centered pass of `average_vector`:
`double average = X[i]; for (j = 1; j <= boxcar; j++) average += X[i+j] + X[i-j];`
`none` models an out-of-bounds read.  (`i - j` never underflows in the
source because the pass starts at `i = boxcar ≥ j`.) -/
def center_sum (X : List D) (i : Nat) : Nat → Option D
  | 0 => X[i]?
  | j + 1 => do
      let s ← center_sum X i j
      let a ← X[i + (j + 1)]?
      let b ← X[i - (j + 1)]?
      pure (s + (a + b))

/-- Centered pass of `average_vector`:
`for (i = boxcar; i < n - boxcar; i++) { ...; X[i] = average; }`,
written with an explicit iteration count `fuel` (the loop runs while
`i < bound`, so it is entered with `fuel = bound - i`). -/
def center_loop (boxcar : Nat) : Nat → Nat → List D → Option (List D)
  | 0, _, X => some X
  | fuel + 1, i, X => do
      let s ← center_sum X i boxcar
      center_loop boxcar fuel (i + 1) (X.set i (s / ((1 + 2 * boxcar : Nat) : D)))

/-- Read-and-sum loop `for (i = lo; i < lo + k; i++) average += X[i];`
starting from `average = 0.0`.  `none` models an out-of-bounds read. -/
def range_sum (X : List D) (lo : Nat) : Nat → Option D
  | 0 => some 0
  | k + 1 => do
      let s ← range_sum X lo k
      let a ← X[lo + k]?
      pure (s + a)

/-- Write loop `for (i = lo; i < lo + k; i++) X[i] = v;`
(`List.set` ignores out-of-range indices; in the source every write of
this loop is in bounds whenever it is reached). -/
def fill_range (X : List D) (lo : Nat) : Nat → D → List D
  | 0, _ => X
  | k + 1, v => (fill_range X lo k v).set (lo + k) v

/-- `bool average_vector(vector<double> & X, unsigned boxcar)` from
`moos.cpp`: in-place boxcar smoothing; the centered pass runs for
`i` from `boxcar` up to the `unsigned` value `n - boxcar` (which wraps
when `boxcar > n`), then the first `boxcar` entries are overwritten by
the mean of the (already smoothed) first `boxcar` entries, and likewise
for the last `boxcar` entries.  Returns `false` (and leaves `X`
unchanged) for an empty vector or `boxcar == 0`. -/
def average_vector (X : List D) (boxcar : Nat) : Option (Bool × List D) :=
  if X.isEmpty ∨ boxcar = 0 then some (false, X)
  else
    let n := X.length
    do
      let X1 ← center_loop boxcar (usub n boxcar - boxcar) boxcar X
      let sL ← range_sum X1 0 boxcar
      let X2 := fill_range X1 0 boxcar (sL / (boxcar : D))
      let lo := usub n boxcar
      let sR ← range_sum X2 lo (n - lo)
      let X3 := fill_range X2 lo (n - lo) (sR / (boxcar : D))
      pure (true, X3)

/-- The two end-plateau passes of `average_vector` applied on their own
(no centered pass): overwrite the first `boxcar` entries with the mean of
the first `boxcar` entries, then the last `boxcar` entries with the mean
of the last `boxcar` entries of the vector as modified by the first
plateau. -/
def end_passes (X : List D) (boxcar : Nat) : Option (List D) := do
  let sL ← range_sum X 0 boxcar
  let X2 := fill_range X 0 boxcar (sL / (boxcar : D))
  let lo := usub X.length boxcar
  let sR ← range_sum X2 lo (X.length - lo)
  pure (fill_range X2 lo (X.length - lo) (sR / (boxcar : D)))

/-- State of one `Device` (one spectrometer channel) in `moos.cpp`. -/
structure Device where
  index : Nat
  pixels : Nat
  error : Int
  wavelengths : List D
  formatted_spectrum : List D
  background_spectrum : List D
  reference_spectrum : List D
  buffer : List D
  transmission : List D

/-- Loop body of `Device::calc_transmission`: for equal-length spectra,
`tau = (raw[pixel] - background[pixel]) / (reference[pixel] - background[pixel])`
pushed per pixel. -/
def trans_values : List D → List D → List D → List D
  | s :: ss, b :: bs, r :: rs => (s - b) / (r - b) :: trans_values ss bs rs
  | _, _, _ => []

/-- `Device::calc_transmission`: asserts that the actual, background and
reference spectra all have length `pixels` (a failed `assert` is
modelled by `none`), then stores the per-pixel transmission. -/
def calc_transmission (d : Device) : Option (Bool × Device) :=
  if d.formatted_spectrum.length = d.pixels ∧
     d.background_spectrum.length = d.pixels ∧
     d.reference_spectrum.length = d.pixels then
    some (true, { d with transmission := trans_values d.formatted_spectrum d.background_spectrum d.reference_spectrum })
  else none

/-- `string::find(delimiter, 0)` on a suffix: index of the first
occurrence of `d` in `s`, or `none`. -/
def char_find : List Char → Char → Option Nat
  | [], _ => none
  | c :: cs, d => if c = d then some 0 else Option.map (· + 1) (char_find cs d)

/-- `s.find(delimiter, i)`: first index `≥ i` holding `d`
(`none` models `string::npos`, which the source stores as `int` `-1`). -/
def str_find (s : List Char) (d : Char) (i : Nat) : Option Nat :=
  Option.map (· + i) (char_find (s.drop i) d)

/-- Loop of `split_string`: while `i < s.size()`, find the next
delimiter; on `npos` push the remaining suffix and stop, otherwise push
the piece `substr(i, j-i)` and continue from `j + 1`.  `fuel` bounds the
iteration count (each iteration increases `i`, so `s.length + 1`
iterations always suffice). -/
def split_loop (s : List Char) (d : Char) : Nat → Nat → List (List Char)
  | 0, _ => []
  | fuel + 1, i =>
      if i < s.length then
        match str_find s d i with
        | none => [s.drop i]
        | some j => (s.drop i).take (j - i) :: split_loop s d fuel (j + 1)
      else []

/-- `vector<string> split_string(string s, char delimiter)` from `moos.cpp`. -/
def split_string (s : List Char) (d : Char) : List (List Char) :=
  split_loop s d (s.length + 1) 0

/-- ASCII decimal digit test (codes 48–57 are the digits). -/
def is_digit (c : Char) : Bool := 48 ≤ c.toNat && c.toNat ≤ 57

/-- Numeric value of an ASCII digit. -/
def digit_val (c : Char) : Nat := c.toNat - 48

/-- Integer-part scanner used by the `atof` model: consume leading
digits, accumulating their value. -/
def parse_int_digits : List Char → Nat → Nat × List Char
  | [], acc => (acc, [])
  | c :: cs, acc =>
      if is_digit c then parse_int_digits cs (acc * 10 + digit_val c)
      else (acc, c :: cs)

/-- C library `atof`, modelled (exactly, since doubles are rationals
here) for the plain nonnegative decimal literals that the
integration-time configuration strings of the claims use:
digits, optionally followed by `.` and more digits. -/
def atof (s : List Char) : D :=
  match parse_int_digits s 0 with
  | (ip, rest) =>
    match rest with
    | '.' :: rest2 =>
        let ds := rest2.takeWhile is_digit
        ((ip : Nat) : D) +
          ((ds.foldl (fun a c => a * 10 + digit_val c) 0 : Nat) : D) / ((10 : D) ^ ds.length)
    | _ => ((ip : Nat) : D)

/-- `unsigned t_us = unsigned(t_s * 1e6);` — conversion of a
(nonnegative) double to `unsigned` truncates toward zero. -/
def to_micro (t : D) : Nat := (⌊t * 1000000⌋).toNat

/-- Padding step of `Meter::pre`: when fewer integration-time values
than devices were given, replicate `str_arr[n-1]` (the last given value,
`n` being the size before padding) until there is one per device.
`none` models the out-of-bounds read `str_arr[n-1]` when the split
produced no values at all. -/
def pad_last (arr : List (List Char)) (num_devices : Nat) : Option (List (List Char)) :=
  if arr.length < num_devices then
    match arr[arr.length - 1]? with
    | none => none
    | some last => some (arr ++ List.replicate (num_devices - arr.length) last)
  else some arr

/-- Integration-time block of `Meter::pre`: split the configuration
string on `:`, pad with the last value, convert each entry from seconds
to whole microseconds, one entry per device.  (After padding the array
has at least `num_devices` entries, so the `getD` default is never
used.) -/
def integration_times_micro_seconds (s : List Char) (num_devices : Nat) :
    Option (List Nat) := do
  let arr ← pad_last (split_string s ':') num_devices
  pure ((List.range num_devices).map fun i => to_micro (atof (arr[i]?.getD [])))

/-- `bool check_for_error(int error)` from `moos.cpp`: on a non-zero
driver error code it prints the error and calls `exit(1)` (modelled as
`Except.error 1`); otherwise it returns `true`. -/
def check_for_error (error : Int) : Except Nat Bool :=
  if error ≠ 0 then Except.error 1 else Except.ok true

/-- The sentinel identity string `"unknown"`. -/
def unknown_chars : List Char := ['u', 'n', 'k', 'n', 'o', 'w', 'n']

/-- `Device::serial_number()`: the driver fills `driver_buffer` and sets
`driver_error`; the function then calls `check_for_error(error)` and
only afterwards tests `if (error) return string("unknown");`. -/
def serial_number (driver_error : Int) (driver_buffer : List Char) :
    Except Nat (List Char) := do
  let _ ← check_for_error driver_error
  if driver_error ≠ 0 then pure unknown_chars else pure driver_buffer

/-- `Device::model_name()`: same structure as `Device::serial_number`. -/
def model_name (driver_error : Int) (driver_buffer : List Char) :
    Except Nat (List Char) := do
  let _ ← check_for_error driver_error
  if driver_error ≠ 0 then pure unknown_chars else pure driver_buffer

/-- Close loop of `Meter::post`: for each device (index paired with the
error code its `seabreeze_close_spectrometer` call reports) the close is
invoked and then `check_for_error(error)` runs.  Returns the indices on
which close was invoked, in order, and `some code` when
`check_for_error` terminated the process. -/
def meter_post_closes : List (Nat × Int) → List Nat × Option Nat
  | [] => ([], none)
  | de :: rest =>
      match check_for_error de.2 with
      | Except.error code => ([de.1], some code)
      | Except.ok _ =>
          let r := meter_post_closes rest
          (de.1 :: r.1, r.2)

/-- Serial number `"FLMS03141"` of the device whose leading pixels are
repaired. -/
def flms_serial : List Char := ['F', 'L', 'M', 'S', '0', '3', '1', '4', '1']

/-- One iteration of the repair loop of `Device::repair_false_pixels`:
`if (buffer[i] < 0.5 * corr || buffer[i] > 2 * corr) buffer[i] = corr;`. -/
def repair_point (buffer : List D) (corr : D) (i : Nat) : Option (List D) := do
  let v ← buffer[i]?
  pure (if v < 0.5 * corr ∨ v > 2 * corr then buffer.set i corr else buffer)

/-- `Device::repair_false_pixels`: when the channel's serial number is
`"FLMS03141"`, read the reference value `corr = buffer[2]` and repair
indices `0` and `1`; any other channel's buffer is left untouched. -/
def repair_false_pixels (serial : List Char) (buffer : List D) : Option (List D) :=
  if serial = flms_serial then do
    let corr ← buffer[2]?
    let b1 ← repair_point buffer corr 0
    let b2 ← repair_point b1 corr 1
    pure b2
  else pure buffer

/-- `vector::resize(n, 0.0)`: truncate when shrinking, append zeros when
growing — existing entries are never cleared. -/
def cpp_resize (v : List D) (n : Nat) : List D :=
  if v.length < n then v ++ List.replicate (n - v.length) 0 else v.take n

/-- Accumulation loop of `Device::read_spectrum`:
`for (pixel = 0; pixel < pixels; pixel++) formatted_spectrum[pixel] += buffer[pixel];`. -/
def acc_loop (buffer : List D) : Nat → List D → Option (List D)
  | 0, fs => some fs
  | p + 1, fs => do
      let fs1 ← acc_loop buffer p fs
      let a ← fs1[p]?
      let b ← buffer[p]?
      pure (fs1.set p (a + b))

/-- Normalisation loop of `Device::read_spectrum`:
`for (pixel = 0; pixel < pixels; pixel++) formatted_spectrum[pixel] *= reverse_denominator;`. -/
def mul_loop (c : D) : Nat → List D → Option (List D)
  | 0, fs => some fs
  | p + 1, fs => do
      let fs1 ← mul_loop c p fs
      let a ← fs1[p]?
      pure (fs1.set p (a * c))

/-- Scan loop of `Device::read_spectrum`: each scan the driver writes
`pixels` doubles into the scratch buffer (`scans` lists the values each
driver call delivers), `repair_false_pixels` runs on the buffer, and the
buffer is accumulated into the averaged spectrum. -/
def scan_loop (serial : List Char) (pixels : Nat) :
    List (List D) → List D → List D → Option (List D)
  | [], fs, _ => some fs
  | s :: rest, fs, buf => do
      let buf1 := s.take pixels ++ buf.drop pixels
      let buf2 ← repair_false_pixels serial buf1
      let fs1 ← acc_loop buf2 pixels fs
      scan_loop serial pixels rest fs1 buf2

/-- `Device::read_spectrum(scans_to_average, boxcar_width)`: resize the
scratch buffer and the accumulator to `pixels` when their length
differs (`resize` keeps already-present entries), zero the accumulator
explicitly only when its length already equals `pixels`, run the scan
loop, divide by the number of scans, and boxcar-smooth the result.  The
parameters `fs0` and `buf0` are the prior contents of
`formatted_spectrum` and `buffer`; `scans` are the per-scan values the
driver delivers (`scans_to_average = scans.length`); `serial` is the
channel's serial number.  Returns the resulting spectrum. -/
def read_spectrum (serial : List Char) (pixels : Nat) (scans : List (List D))
    (boxcar : Nat) (fs0 buf0 : List D) : Option (List D) := do
  let buf := if buf0.length ≠ pixels then cpp_resize buf0 pixels else buf0
  let fs := if fs0.length ≠ pixels then cpp_resize fs0 pixels
            else List.replicate pixels 0
  let fs1 ← scan_loop serial pixels scans fs buf
  let fs2 ← mul_loop (1 / ((scans.length : Nat) : D)) pixels fs1
  let p ← average_vector fs2 boxcar
  pure p.2

/-- Timer units the acquisition loop of `Meter::task` can sleep with. -/
inductive SleepUnit where
  | milliseconds
  | seconds
  | minutes
  deriving DecidableEq

/-- Inter-iteration sleep of `Meter::task`: unit and integral amount,
chosen from `post_scans_sleep` alone (`static_cast<unsigned long>`
truncates; the delays are nonnegative, so truncation is `⌊·⌋`). -/
def post_sleep (post_scans_sleep : D) : SleepUnit × Int :=
  if post_scans_sleep > 600 then (SleepUnit.minutes, ⌊post_scans_sleep / 60⌋)
  else if post_scans_sleep > 10 then (SleepUnit.seconds, ⌊post_scans_sleep * 1⌋)
  else (SleepUnit.milliseconds, ⌊post_scans_sleep * 1000⌋)

/-! ## Claim C7: empty input or radius 0 -/

/-- C7: for every input, if the sequence is empty or the radius is `0`,
`average_vector` returns `false` ("not applicable") and leaves the
sequence unchanged, without any fatal error. -/
theorem C7_smoothing_disabled (X : List D) (r : Nat) (h : X = [] ∨ r = 0) :
    average_vector X r = some (false, X) := by
  rcases h with h | h
  · subst h; simp [average_vector]
  · subst h; simp [average_vector]

/-- Witness for C7 at the concrete input `X = [3]`, `r = 0`. -/
theorem C7_smoothing_disabled_witness :
    (([3] : List D) = [] ∨ (0 : Nat) = 0) ∧ average_vector [3] 0 = some (false, [3]) :=
  ⟨Or.inr rfl, C7_smoothing_disabled [3] 0 (Or.inr rfl)⟩

/-! ## Claim C9: sleep-unit selection in the acquisition loop -/

/-- C9: the timer unit is selected from the configured post-scan delay
alone; `0.05` takes the milliseconds path, `30` the seconds path,
`700` the minutes path, and the chosen path changes exactly at the
strict thresholds `10.0` and `600.0`. -/
theorem C9_sleep_unit_selection :
    (post_sleep 0.05).1 = SleepUnit.milliseconds ∧
    (post_sleep 30).1 = SleepUnit.seconds ∧
    (post_sleep 700).1 = SleepUnit.minutes ∧
    (post_sleep 10).1 = SleepUnit.milliseconds ∧
    (post_sleep 600).1 = SleepUnit.seconds ∧
    (∀ t : D, t ≤ 10 → (post_sleep t).1 = SleepUnit.milliseconds) ∧
    (∀ t : D, 10 < t → t ≤ 600 → (post_sleep t).1 = SleepUnit.seconds) ∧
    (∀ t : D, 600 < t → (post_sleep t).1 = SleepUnit.minutes) := by
  refine ⟨by norm_num [post_sleep], by norm_num [post_sleep], by norm_num [post_sleep],
    by norm_num [post_sleep], by norm_num [post_sleep], ?_, ?_, ?_⟩
  · intro t h
    rw [post_sleep, if_neg (by push_neg; linarith), if_neg (by push_neg; linarith)]
  · intro t h1 h2
    rw [post_sleep, if_neg (by push_neg; linarith), if_pos (by linarith)]
  · intro t h
    rw [post_sleep, if_pos (by linarith)]

/-- Witness for C9's quantified clauses at the concrete delay `5`. -/
theorem C9_sleep_unit_selection_witness :
    (5 : D) ≤ 10 ∧ (post_sleep 5).1 = SleepUnit.milliseconds :=
  ⟨by norm_num, C9_sleep_unit_selection.2.2.2.2.2.1 5 (by norm_num)⟩

/-! ## Claim C5: identity query on driver error -/

/-- C5 (evaluation at the failing input): when the driver reports error
code `1` for the serial-number or model-name query, `check_for_error`
terminates the process with exit code 1 — the `return string("unknown")`
branch after it is dead code, so neither function ever returns the
sentinel. -/
theorem C5_identity_error_terminates :
    serial_number 1 ['A', 'B', 'C'] = Except.error 1 ∧
    model_name 1 ['A', 'B', 'C'] = Except.error 1 ∧
    serial_number 1 ['A', 'B', 'C'] ≠ Except.ok unknown_chars ∧
    model_name 1 ['A', 'B', 'C'] ≠ Except.ok unknown_chars := by
  have h1 : serial_number 1 ['A', 'B', 'C'] = Except.error 1 := rfl
  have h2 : model_name 1 ['A', 'B', 'C'] = Except.error 1 := rfl
  refine ⟨h1, h2, ?_, ?_⟩
  · rw [h1]; intro h; exact Except.noConfusion h
  · rw [h2]; intro h; exact Except.noConfusion h

/-! ## Claim C6: teardown close loop -/

lemma meter_post_closes_all_ok (l : List (Nat × Int)) (h : ∀ p ∈ l, p.2 = 0) :
    meter_post_closes l = (l.map Prod.fst, none) := by
  induction l with
  | nil => rfl
  | cons d rest ih =>
      have hd : d.2 = 0 := h d (List.mem_cons_self d rest)
      have hrest : ∀ p ∈ rest, p.2 = 0 := fun p hp => h p (List.mem_cons_of_mem d hp)
      simp [meter_post_closes, check_for_error, hd, ih hrest]

lemma meter_post_closes_first_err (a : List (Nat × Int)) (p : Nat × Int)
    (b : List (Nat × Int)) (ha : ∀ q ∈ a, q.2 = 0) (hp : p.2 ≠ 0) :
    meter_post_closes (a ++ p :: b) = (a.map Prod.fst ++ [p.1], some 1) := by
  induction a with
  | nil => simp [meter_post_closes, check_for_error, hp]
  | cons q a' ih =>
      have hq : q.2 = 0 := ha q (List.mem_cons_self q a')
      have ha' : ∀ r ∈ a', r.2 = 0 := fun r hr => ha r (List.mem_cons_of_mem q hr)
      simp [meter_post_closes, check_for_error, hq, ih ha']

/-- C6 corrected: the close loop of `Meter::post` closes the devices in
discovery order only as long as no close reports an error; the first
non-zero close error makes `check_for_error` terminate the process
(exit code 1), so the remaining devices are never closed. -/
theorem C6_close_loop (l : List (Nat × Int)) :
    ((∀ p ∈ l, p.2 = 0) → meter_post_closes l = (l.map Prod.fst, none)) ∧
    (∀ a p b, l = a ++ p :: b → (∀ q ∈ a, q.2 = 0) → p.2 ≠ 0 →
      meter_post_closes l = (a.map Prod.fst ++ [p.1], some 1)) := by
  refine ⟨meter_post_closes_all_ok l, ?_⟩
  rintro a p b rfl ha hp
  exact meter_post_closes_first_err a p b ha hp

/-- Witness for C6 at two devices whose closes both succeed, and at two
devices whose first close fails. -/
theorem C6_close_loop_witness :
    meter_post_closes [((0 : Nat), (0 : Int)), (1, 0)] = ([0, 1], none) ∧
    meter_post_closes [((0 : Nat), (1 : Int)), (1, 0)] = ([0], some 1) :=
  ⟨(C6_close_loop [(0, 0), (1, 0)]).1 (by decide),
   (C6_close_loop [(0, 1), (1, 0)]).2 [] (0, 1) [(1, 0)] rfl (by decide) (by decide)⟩

/-- C6 counterexample to the claim as stated: with two devices where the
first close reports error 1, the process exits and device 1 is never
closed — the error does prevent closing the remaining device. -/
theorem C6_counterexample :
    meter_post_closes [((0 : Nat), (1 : Int)), (1, 0)] = ([0], some 1) ∧
    ¬ (1 ∈ (meter_post_closes [((0 : Nat), (1 : Int)), (1, 0)]).1) := by
  refine ⟨rfl, by decide⟩

/-! ## Claim C8: point repair of leading pixels -/

/-- C8: for a channel matching the point-repair rule and a buffer with at
least the reference index present, each leading pixel (index 0 or 1) is
replaced by the reference value `buffer[2]` exactly when it lies outside
the tolerance band (below half or above double the reference); leading
pixels inside the band and every pixel at index `≥ 2` are unchanged. -/
theorem C8_point_repair (buf : List D) (h : 3 ≤ buf.length) :
    ∃ out, repair_false_pixels flms_serial buf = some out ∧
      out.length = buf.length ∧
      (∀ i, 2 ≤ i → out[i]? = buf[i]?) ∧
      (∀ (i : Nat) (v c : D), i < 2 → buf[i]? = some v → buf[2]? = some c →
        out[i]? = some (if v < 0.5 * c ∨ v > 2 * c then c else v)) := by
  rcases buf with _ | ⟨v0, buf1⟩
  · simp at h
  rcases buf1 with _ | ⟨v1, buf2⟩
  · simp at h
  rcases buf2 with _ | ⟨c, t⟩
  · simp at h
  by_cases h0 : v0 < 0.5 * c ∨ v0 > 2 * c <;>
    by_cases h1 : v1 < 0.5 * c ∨ v1 > 2 * c
  · refine ⟨c :: c :: c :: t, ?_, by simp, ?_, ?_⟩
    · simp [repair_false_pixels, repair_point, h0, h1]
    · intro i hi
      obtain ⟨k, rfl⟩ : ∃ k, i = k + 2 := ⟨i - 2, by omega⟩
      simp
    · intro i v cc hi hv hc
      simp only [List.getElem?_cons_succ, List.getElem?_cons_zero, Option.some.injEq] at hc
      subst hc
      interval_cases i
      · simp only [List.getElem?_cons_zero, Option.some.injEq] at hv
        subst hv
        simp [h0]
      · simp only [List.getElem?_cons_succ, List.getElem?_cons_zero, Option.some.injEq] at hv
        subst hv
        simp [h1]
  · refine ⟨c :: v1 :: c :: t, ?_, by simp, ?_, ?_⟩
    · simp [repair_false_pixels, repair_point, h0, h1]
    · intro i hi
      obtain ⟨k, rfl⟩ : ∃ k, i = k + 2 := ⟨i - 2, by omega⟩
      simp
    · intro i v cc hi hv hc
      simp only [List.getElem?_cons_succ, List.getElem?_cons_zero, Option.some.injEq] at hc
      subst hc
      interval_cases i
      · simp only [List.getElem?_cons_zero, Option.some.injEq] at hv
        subst hv
        simp [h0]
      · simp only [List.getElem?_cons_succ, List.getElem?_cons_zero, Option.some.injEq] at hv
        subst hv
        simp [h1]
  · refine ⟨v0 :: c :: c :: t, ?_, by simp, ?_, ?_⟩
    · simp [repair_false_pixels, repair_point, h0, h1]
    · intro i hi
      obtain ⟨k, rfl⟩ : ∃ k, i = k + 2 := ⟨i - 2, by omega⟩
      simp
    · intro i v cc hi hv hc
      simp only [List.getElem?_cons_succ, List.getElem?_cons_zero, Option.some.injEq] at hc
      subst hc
      interval_cases i
      · simp only [List.getElem?_cons_zero, Option.some.injEq] at hv
        subst hv
        simp [h0]
      · simp only [List.getElem?_cons_succ, List.getElem?_cons_zero, Option.some.injEq] at hv
        subst hv
        simp [h1]
  · refine ⟨v0 :: v1 :: c :: t, ?_, by simp, ?_, ?_⟩
    · simp [repair_false_pixels, repair_point, h0, h1]
    · intro i hi
      obtain ⟨k, rfl⟩ : ∃ k, i = k + 2 := ⟨i - 2, by omega⟩
      simp
    · intro i v cc hi hv hc
      simp only [List.getElem?_cons_succ, List.getElem?_cons_zero, Option.some.injEq] at hc
      subst hc
      interval_cases i
      · simp only [List.getElem?_cons_zero, Option.some.injEq] at hv
        subst hv
        simp [h0]
      · simp only [List.getElem?_cons_succ, List.getElem?_cons_zero, Option.some.injEq] at hv
        subst hv
        simp [h1]

/-- Witness for C8 at `buf = [9, 1, 1, 5]`: one out-of-tolerance and one
in-tolerance leading value. -/
theorem C8_point_repair_witness :
    (3 : Nat) ≤ ([9, 1, 1, 5] : List D).length ∧
    (∃ out, repair_false_pixels flms_serial [9, 1, 1, 5] = some out ∧
      out.length = ([9, 1, 1, 5] : List D).length ∧
      (∀ i, 2 ≤ i → out[i]? = (([9, 1, 1, 5] : List D))[i]?) ∧
      (∀ (i : Nat) (v c : D), i < 2 → (([9, 1, 1, 5] : List D))[i]? = some v →
        (([9, 1, 1, 5] : List D))[2]? = some c →
        out[i]? = some (if v < 0.5 * c ∨ v > 2 * c then c else v))) :=
  ⟨by simp, C8_point_repair [9, 1, 1, 5] (by simp)⟩

/-! ## Claim C2: transmission formula and precondition -/

lemma trans_values_length (ss bs rs : List D) (hb : bs.length = ss.length)
    (hr : rs.length = ss.length) : (trans_values ss bs rs).length = ss.length := by
  induction ss generalizing bs rs with
  | nil => cases bs <;> cases rs <;> simp [trans_values]
  | cons s ss ih =>
      cases bs with
      | nil => simp at hb
      | cons b bs =>
          cases rs with
          | nil => simp at hr
          | cons r rs =>
              simp only [List.length_cons] at hb hr ⊢
              rw [trans_values, List.length_cons, ih bs rs (by omega) (by omega)]

lemma trans_values_getElem? (ss bs rs : List D) (i : Nat) (hb : bs.length = ss.length)
    (hr : rs.length = ss.length) (hi : i < ss.length) :
    (trans_values ss bs rs)[i]? =
      some ((ss[i]?.getD 0 - bs[i]?.getD 0) / (rs[i]?.getD 0 - bs[i]?.getD 0)) := by
  induction ss generalizing bs rs i with
  | nil => simp at hi
  | cons s ss ih =>
      cases bs with
      | nil => simp at hb
      | cons b bs =>
          cases rs with
          | nil => simp at hr
          | cons r rs =>
              simp only [List.length_cons] at hb hr hi
              cases i with
              | zero => simp [trans_values]
              | succ k =>
                  rw [trans_values]
                  simp only [List.getElem?_cons_succ]
                  exact ih bs rs k (by omega) (by omega) (by omega)

/-- C2: whenever the actual, background and reference spectra all have
length `pixels`, `calc_transmission` succeeds and stores a transmission
sequence of length `pixels` whose entry at every index is exactly
`(spectrum[i] - background[i]) / (reference[i] - background[i])`, with
no clamping; when any of the three lengths differs from `pixels` (in
particular before both baselines exist), the `assert` fails instead of
any default being returned. -/
theorem C2_calc_transmission (d : Device) :
    (¬ (d.formatted_spectrum.length = d.pixels ∧ d.background_spectrum.length = d.pixels ∧
        d.reference_spectrum.length = d.pixels) → calc_transmission d = none) ∧
    ((d.formatted_spectrum.length = d.pixels ∧ d.background_spectrum.length = d.pixels ∧
        d.reference_spectrum.length = d.pixels) →
      ∃ d2, calc_transmission d = some (true, d2) ∧
        d2.transmission.length = d.pixels ∧
        (∀ i, i < d.pixels →
          d2.transmission[i]? =
            some ((d.formatted_spectrum[i]?.getD 0 - d.background_spectrum[i]?.getD 0) /
              (d.reference_spectrum[i]?.getD 0 - d.background_spectrum[i]?.getD 0)))) := by
  constructor
  · intro h
    rw [calc_transmission, if_neg h]
  · rintro ⟨h1, h2, h3⟩
    refine ⟨_, by rw [calc_transmission, if_pos ⟨h1, h2, h3⟩], ?_, ?_⟩
    · show (trans_values d.formatted_spectrum d.background_spectrum
        d.reference_spectrum).length = d.pixels
      rw [trans_values_length _ _ _ (h2.trans h1.symm) (h3.trans h1.symm), h1]
    · intro i hi
      show (trans_values d.formatted_spectrum d.background_spectrum
        d.reference_spectrum)[i]? = _
      exact trans_values_getElem? _ _ _ i (h2.trans h1.symm) (h3.trans h1.symm)
        (by omega)

/-- Witness for C2 at a concrete device with `pixels = 2`,
spectrum `[3, 5]`, background `[1, 1]`, reference `[5, 5]`. -/
theorem C2_calc_transmission_witness :
    ((⟨0, 2, 0, [], [3, 5], [1, 1], [5, 5], [], []⟩ : Device).formatted_spectrum.length = 2 ∧
     (⟨0, 2, 0, [], [3, 5], [1, 1], [5, 5], [], []⟩ : Device).background_spectrum.length = 2 ∧
     (⟨0, 2, 0, [], [3, 5], [1, 1], [5, 5], [], []⟩ : Device).reference_spectrum.length = 2) ∧
    (∃ d2, calc_transmission ⟨0, 2, 0, [], [3, 5], [1, 1], [5, 5], [], []⟩ = some (true, d2) ∧
      d2.transmission.length = 2 ∧
      (∀ i, i < 2 →
        d2.transmission[i]? =
          some (((⟨0, 2, 0, [], [3, 5], [1, 1], [5, 5], [], []⟩ : Device).formatted_spectrum[i]?.getD 0 -
              (⟨0, 2, 0, [], [3, 5], [1, 1], [5, 5], [], []⟩ : Device).background_spectrum[i]?.getD 0) /
            ((⟨0, 2, 0, [], [3, 5], [1, 1], [5, 5], [], []⟩ : Device).reference_spectrum[i]?.getD 0 -
              (⟨0, 2, 0, [], [3, 5], [1, 1], [5, 5], [], []⟩ : Device).background_spectrum[i]?.getD 0)))) :=
  ⟨⟨by simp, by simp, by simp⟩,
   (C2_calc_transmission ⟨0, 2, 0, [], [3, 5], [1, 1], [5, 5], [], []⟩).2 ⟨by simp, by simp, by simp⟩⟩

/-! ## Claim C3: integration-time parsing in Meter::pre -/

lemma integration_times_length (s : List Char) (nd : Nat) (r : List Nat)
    (h : integration_times_micro_seconds s nd = some r) : r.length = nd := by
  rw [integration_times_micro_seconds] at h
  cases hp : pad_last (split_string s ':') nd with
  | none => rw [hp] at h; simp at h
  | some arr =>
      rw [hp] at h
      simp only [Option.bind_eq_bind, Option.some_bind, Option.pure_def,
        Option.some.injEq] at h
      rw [← h]
      simp

lemma integration_times_replicates (s : List Char) (nd : Nat) (r : List Nat)
    (h : integration_times_micro_seconds s nd = some r) (i : Nat)
    (hk : (split_string s ':').length ≤ i) (hi : i < nd) :
    r[i]? = r[(split_string s ':').length - 1]? := by
  rw [integration_times_micro_seconds] at h
  cases hp : pad_last (split_string s ':') nd with
  | none => rw [hp] at h; simp at h
  | some arr =>
      rw [hp] at h
      simp only [Option.bind_eq_bind, Option.some_bind, Option.pure_def,
        Option.some.injEq] at h
      have hknd : (split_string s ':').length < nd := lt_of_le_of_lt hk hi
      rw [pad_last, if_pos hknd] at hp
      cases hl : (split_string s ':')[(split_string s ':').length - 1]? with
      | none => rw [hl] at hp; simp at hp
      | some last =>
          rw [hl] at hp
          simp only [Option.some.injEq] at hp
          obtain ⟨hlt, _⟩ := List.getElem?_eq_some_iff.mp hl
          rw [← h]
          rw [List.getElem?_map, List.getElem?_map,
            List.getElem?_range hi, List.getElem?_range (by omega : (split_string s ':').length - 1 < nd)]
          simp only [Option.map_some']
          rw [← hp]
          rw [List.getElem?_append_right hk,
            List.getElem?_append_left (by omega : (split_string s ':').length - 1 < (split_string s ':').length),
            hl, List.getElem?_replicate_of_lt (by omega : i - (split_string s ':').length < nd - (split_string s ':').length)]

lemma to_micro_one_thousandth : to_micro (atof ['0', '.', '0', '0', '1']) = 1000 := by
  have h1 : parse_int_digits ['0', '.', '0', '0', '1'] 0 = (0, ['.', '0', '0', '1']) := by
    decide
  have h2 : List.takeWhile is_digit ['0', '0', '1'] = ['0', '0', '1'] := by decide
  have h3 : List.foldl (fun a c => a * 10 + digit_val c) 0 ['0', '0', '1'] = 1 := by decide
  rw [to_micro, atof, h1]
  norm_num [h2, h3]
  decide

lemma to_micro_two_thousandths : to_micro (atof ['0', '.', '0', '0', '2']) = 2000 := by
  have h1 : parse_int_digits ['0', '.', '0', '0', '2'] 0 = (0, ['.', '0', '0', '2']) := by
    decide
  have h2 : List.takeWhile is_digit ['0', '0', '2'] = ['0', '0', '2'] := by decide
  have h3 : List.foldl (fun a c => a * 10 + digit_val c) 0 ['0', '0', '2'] = 2 := by decide
  rw [to_micro, atof, h1]
  norm_num [h2, h3]
  decide

/-- C3: `Meter::pre` splits the integration-time configuration string on
`:`; when fewer values than devices are given, the last given value is
the one replicated; each value is converted from seconds to whole
microseconds; the result has exactly one entry per device; and the two
concrete configurations of the claim evaluate as stated. -/
theorem C3_integration_time_parsing :
    (∀ (s : List Char) (nd : Nat) (r : List Nat),
      integration_times_micro_seconds s nd = some r → r.length = nd) ∧
    (∀ (s : List Char) (nd : Nat) (r : List Nat),
      integration_times_micro_seconds s nd = some r →
      ∀ i, (split_string s ':').length ≤ i → i < nd →
        r[i]? = r[(split_string s ':').length - 1]?) ∧
    integration_times_micro_seconds ['0', '.', '0', '0', '1'] 3 = some [1000, 1000, 1000] ∧
    integration_times_micro_seconds ['0', '.', '0', '0', '1', ':', '0', '.', '0', '0', '2'] 3 =
      some [1000, 2000, 2000] := by
  refine ⟨integration_times_length, integration_times_replicates, ?_, ?_⟩
  · have hs : split_string ['0', '.', '0', '0', '1'] ':' = [['0', '.', '0', '0', '1']] := by
      decide
    have hp : pad_last [['0', '.', '0', '0', '1']] 3 =
        some [['0', '.', '0', '0', '1'], ['0', '.', '0', '0', '1'], ['0', '.', '0', '0', '1']] := by
      decide
    rw [integration_times_micro_seconds, hs, hp]
    simp [List.range_succ, to_micro_one_thousandth]
  · have hs : split_string ['0', '.', '0', '0', '1', ':', '0', '.', '0', '0', '2'] ':' =
        [['0', '.', '0', '0', '1'], ['0', '.', '0', '0', '2']] := by decide
    have hp : pad_last [['0', '.', '0', '0', '1'], ['0', '.', '0', '0', '2']] 3 =
        some [['0', '.', '0', '0', '1'], ['0', '.', '0', '0', '2'], ['0', '.', '0', '0', '2']] := by
      decide
    rw [integration_times_micro_seconds, hs, hp]
    simp [List.range_succ, to_micro_one_thousandth, to_micro_two_thousandths]

/-- Witness for C3's quantified clauses: the one-entry-per-device clause
applied at the concrete configuration string `"0.001"` with 3 devices. -/
theorem C3_integration_time_parsing_witness :
    integration_times_micro_seconds ['0', '.', '0', '0', '1'] 3 = some [1000, 1000, 1000] ∧
    ([1000, 1000, 1000] : List Nat).length = 3 :=
  ⟨C3_integration_time_parsing.2.2.1,
   C3_integration_time_parsing.1 ['0', '.', '0', '0', '1'] 3 [1000, 1000, 1000]
     C3_integration_time_parsing.2.2.1⟩

/-! ## Claim C1: the centered pass smooths in place -/

lemma usub_eq (n r : Nat) (h : r ≤ n) (h2 : n < 2 ^ 32) : usub n r = n - r := by
  rw [usub]
  have e : n + 2 ^ 32 - r = (n - r) + 2 ^ 32 := by omega
  rw [e, Nat.add_mod_right]
  exact Nat.mod_eq_of_lt (by omega)

lemma center_sum_isSome (X : List D) (i : Nat) (b : Nat) (hb : b ≤ i)
    (hub : i + b < X.length) : ∃ s, center_sum X i b = some s := by
  induction b with
  | zero => exact ⟨_, List.getElem?_eq_getElem (by omega)⟩
  | succ j ih =>
      obtain ⟨s, hs⟩ := ih (by omega) (by omega)
      rw [center_sum, hs,
        List.getElem?_eq_getElem (show i + (j + 1) < X.length by omega),
        List.getElem?_eq_getElem (show i - (j + 1) < X.length by omega)]
      exact ⟨_, rfl⟩

lemma range_sum_isSome (X : List D) (lo k : Nat) (h : lo + k ≤ X.length) :
    ∃ s, range_sum X lo k = some s := by
  induction k with
  | zero => exact ⟨0, rfl⟩
  | succ j ih =>
      obtain ⟨s, hs⟩ := ih (by omega)
      rw [range_sum, hs, List.getElem?_eq_getElem (show lo + j < X.length by omega)]
      exact ⟨_, rfl⟩

lemma fill_range_length (X : List D) (lo k : Nat) (v : D) :
    (fill_range X lo k v).length = X.length := by
  induction k with
  | zero => rfl
  | succ j ih => rw [fill_range, List.length_set, ih]

lemma fill_range_getElem?_outside (X : List D) (lo k : Nat) (v : D) (m : Nat)
    (h : m < lo ∨ lo + k ≤ m) : (fill_range X lo k v)[m]? = X[m]? := by
  induction k with
  | zero => rfl
  | succ j ih =>
      rw [fill_range, List.getElem?_set_ne (show lo + j ≠ m by omega)]
      exact ih (by omega)

lemma take_append_drop_eq (Y X : List D) (i : Nat) (hlen : Y.length = X.length)
    (hag : ∀ m, m < i → Y[m]? = X[m]?) (hi : i ≤ X.length) :
    Y.take i ++ X.drop i = X := by
  have hTlen : (Y.take i).length = i := by rw [List.length_take]; omega
  apply List.ext_getElem?
  intro m
  by_cases hm : m < i
  · rw [List.getElem?_append_left (by omega : m < (Y.take i).length),
      List.getElem?_take_of_lt hm]
    exact hag m hm
  · rw [List.getElem?_append_right (by omega : (Y.take i).length ≤ m), hTlen,
      List.getElem?_drop]
    have : i + (m - i) = m := by omega
    rw [this]

/-- Invariant of the centered pass: starting at index `i` with `fuel`
iterations left, the loop succeeds, writes only the indices
`i ≤ k < i + fuel`, and each written index `k` holds the window mean of
the array state at the time `k` was processed — already-smoothed values
to the left of `k` and original values from `k` rightwards. -/
lemma center_loop_spec (r : Nat) :
    ∀ (fuel i : Nat) (X : List D), r ≤ i → i + fuel + r ≤ X.length →
    ∃ Y, center_loop r fuel i X = some Y ∧
      Y.length = X.length ∧
      (∀ k, k < i → Y[k]? = X[k]?) ∧
      (∀ k, i + fuel ≤ k → Y[k]? = X[k]?) ∧
      (∀ k, i ≤ k → k < i + fuel →
        ∃ s, center_sum (Y.take k ++ X.drop k) k r = some s ∧
          Y[k]? = some (s / ((1 + 2 * r : Nat) : D))) := by
  intro fuel
  induction fuel with
  | zero =>
      intro i X hri hlen
      exact ⟨X, rfl, rfl, fun k _ => rfl, fun k _ => rfl,
        fun k hk1 hk2 => absurd hk2 (by omega)⟩
  | succ fuel ih =>
      intro i X hri hlen
      obtain ⟨s, hs⟩ := center_sum_isSome X i r hri (by omega)
      obtain ⟨Y, hY, hYlen, hbelow, habove, hint⟩ :=
        ih (i + 1) (X.set i (s / ((1 + 2 * r : Nat) : D))) (by omega)
          (by rw [List.length_set]; omega)
      have hilt : i < X.length := by omega
      have hXset : ∀ k, k ≠ i →
          (X.set i (s / ((1 + 2 * r : Nat) : D)))[k]? = X[k]? :=
        fun k hk => List.getElem?_set_ne hk.symm
      refine ⟨Y, ?_, by rw [hYlen, List.length_set], ?_, ?_, ?_⟩
      · rw [center_loop, hs]
        exact hY
      · intro k hk
        rw [hbelow k (by omega), hXset k (by omega)]
      · intro k hk
        rw [habove k (by omega), hXset k (by omega)]
      · intro k hk1 hk2
        rcases Nat.eq_or_lt_of_le hk1 with rfl | hlt
        · have hYi : Y[i]? = some (s / ((1 + 2 * r : Nat) : D)) := by
            rw [hbelow i (by omega)]
            exact List.getElem?_set_self hilt
          have hagree : ∀ m, m < i → Y[m]? = X[m]? := fun m hm => by
            rw [hbelow m (by omega), hXset m (by omega)]
          have heq : Y.take i ++ X.drop i = X :=
            take_append_drop_eq Y X i (by rw [hYlen, List.length_set]) hagree (by omega)
          exact ⟨s, by rw [heq]; exact hs, hYi⟩
        · obtain ⟨s2, hcs, hYk⟩ := hint k (by omega) (by omega)
          rw [List.drop_set, if_pos hlt] at hcs
          exact ⟨s2, hcs, hYk⟩

lemma average_vector_pos (X : List D) (r : Nat) (h : ¬(X.isEmpty = true ∨ r = 0)) :
    average_vector X r =
      (center_loop r (usub X.length r - r) r X).bind fun X1 =>
      (range_sum X1 0 r).bind fun sL =>
      (range_sum (fill_range X1 0 r (sL / (r : D))) (usub X.length r)
          (X.length - usub X.length r)).bind fun sR =>
      some (true, fill_range (fill_range X1 0 r (sL / (r : D))) (usub X.length r)
          (X.length - usub X.length r) (sR / (r : D))) := by
  rw [average_vector, if_neg h]
  rfl

/-- C1 amended: the centered pass smooths in place, left to right: each
interior position `k` (with `0 < r` and `2r < n`) receives the mean of
the `2r+1`-sample window of the array state at the time `k` is processed
(`Y.take k ++ X.drop k`: already-smoothed values to the left of `k`,
original values from `k` on), and the end plateaus do not disturb the
interior; only the first interior position `k = r` is guaranteed to hold
the mean of the window of the original input. -/
theorem C1_interior_in_place (X : List D) (r : Nat) (h1 : 0 < r)
    (h2 : 2 * r < X.length) (h3 : X.length < 2 ^ 32) :
    ∃ Y Z : List D,
      center_loop r (X.length - 2 * r) r X = some Y ∧
      average_vector X r = some (true, Z) ∧
      Y.length = X.length ∧ Z.length = X.length ∧
      (∀ k, k < r → Y[k]? = X[k]?) ∧
      (∀ k, X.length - r ≤ k → Y[k]? = X[k]?) ∧
      (∀ k, r ≤ k → k < X.length - r →
        ∃ s, center_sum (Y.take k ++ X.drop k) k r = some s ∧
          Y[k]? = some (s / ((1 + 2 * r : Nat) : D))) ∧
      (∀ k, r ≤ k → k < X.length - r → Z[k]? = Y[k]?) ∧
      (∃ s0, center_sum X r r = some s0 ∧ Z[r]? = some (s0 / ((1 + 2 * r : Nat) : D))) := by
  have hne : ¬(X.isEmpty = true ∨ r = 0) := by
    rintro (h | h)
    · rw [List.isEmpty_iff.mp h] at h2; simp at h2
    · omega
  have hu : usub X.length r = X.length - r := usub_eq _ _ (by omega) h3
  have hf : usub X.length r - r = X.length - 2 * r := by omega
  obtain ⟨Y, hY, hYlen, hbelow, habove, hint⟩ :=
    center_loop_spec r (X.length - 2 * r) r X le_rfl (by omega)
  obtain ⟨sL, hsL⟩ := range_sum_isSome Y 0 r (by omega)
  obtain ⟨sR, hsR⟩ := range_sum_isSome (fill_range Y 0 r (sL / (r : D))) (X.length - r)
      (X.length - (X.length - r)) (by rw [fill_range_length]; omega)
  refine ⟨Y, fill_range (fill_range Y 0 r (sL / (r : D))) (X.length - r)
      (X.length - (X.length - r)) (sR / (r : D)), hY, ?_, hYlen, ?_, ?_, ?_, ?_, ?_, ?_⟩
  · rw [average_vector_pos X r hne, hf, hu, hY, Option.some_bind, hsL, Option.some_bind,
      hsR, Option.some_bind]
  · rw [fill_range_length, fill_range_length, hYlen]
  · exact fun k hk => hbelow k hk
  · exact fun k hk => habove k (by omega)
  · exact fun k hk1 hk2 => hint k hk1 (by omega)
  · intro k hk1 hk2
    rw [fill_range_getElem?_outside _ _ _ _ _ (Or.inl (by omega)),
      fill_range_getElem?_outside _ _ _ _ _ (Or.inr (by omega))]
  · obtain ⟨s0, hcs, hYr⟩ := hint r le_rfl (by omega)
    have heq : Y.take r ++ X.drop r = X :=
      take_append_drop_eq Y X r hYlen (fun m hm => hbelow m hm) (by omega)
    refine ⟨s0, by rw [heq] at hcs; exact hcs, ?_⟩
    rw [fill_range_getElem?_outside _ _ _ _ _ (Or.inl (by omega)),
      fill_range_getElem?_outside _ _ _ _ _ (Or.inr (by omega)), hYr]

/-- C1 counterexample to the claim as stated: for `X = [0, 0, 9, 0]`,
`r = 1` (so `0 < r < n/2`), the interior position `2` of the output is
`4`, computed from the already-smoothed value at position `1`, whereas
the mean of the original window `X[1..3]` is `(0 + 9 + 0)/3 = 3`. -/
theorem C1_counterexample :
    average_vector [0, 0, 9, 0] 1 = some (true, [0, 3, 4, 0]) ∧
    ((4 : D) ≠ ((0 : D) + 9 + 0) / 3) := by
  constructor
  · norm_num [average_vector, center_loop, center_sum, range_sum, fill_range, usub]
  · norm_num

/-- Witness for C1's amended theorem at `X = [0, 0, 9, 0]`, `r = 1`. -/
theorem C1_interior_in_place_witness :
    (0 < 1 ∧ 2 * 1 < ([0, 0, 9, 0] : List D).length ∧
      ([0, 0, 9, 0] : List D).length < 2 ^ 32) ∧
    (∃ Y Z : List D,
      center_loop 1 (([0, 0, 9, 0] : List D).length - 2 * 1) 1 [0, 0, 9, 0] = some Y ∧
      average_vector [0, 0, 9, 0] 1 = some (true, Z) ∧
      Y.length = ([0, 0, 9, 0] : List D).length ∧
      Z.length = ([0, 0, 9, 0] : List D).length ∧
      (∀ k, k < 1 → Y[k]? = (([0, 0, 9, 0] : List D))[k]?) ∧
      (∀ k, ([0, 0, 9, 0] : List D).length - 1 ≤ k → Y[k]? = (([0, 0, 9, 0] : List D))[k]?) ∧
      (∀ k, 1 ≤ k → k < ([0, 0, 9, 0] : List D).length - 1 →
        ∃ s, center_sum (Y.take k ++ ([0, 0, 9, 0] : List D).drop k) k 1 = some s ∧
          Y[k]? = some (s / ((1 + 2 * 1 : Nat) : D))) ∧
      (∀ k, 1 ≤ k → k < ([0, 0, 9, 0] : List D).length - 1 → Z[k]? = Y[k]?) ∧
      (∃ s0, center_sum [0, 0, 9, 0] 1 1 = some s0 ∧
        Z[1]? = some (s0 / ((1 + 2 * 1 : Nat) : D)))) :=
  ⟨⟨by decide, by decide, by decide⟩,
   C1_interior_in_place [0, 0, 9, 0] 1 (by decide) (by decide) (by decide)⟩

/-! ## Claim C4: behaviour when the window exceeds half the length -/

/-- C4 counterexample to the claim as stated: for the non-empty input
`X = [1]` with radius `r = 2` (so `n < 2r`), the `unsigned` loop bound
`n - boxcar` wraps around to `2^32 - 1`, the centered pass runs and its
very first read `X[2]` is out of bounds (`none`), contradicting "zero
iterations" and "every element access stays in bounds". -/
theorem C4_counterexample : average_vector [1] 2 = none := by decide

/-- C4 amended: for a non-empty input with `0 < r`, `r ≤ n < 2r`, the
centered pass indeed performs zero iterations (its trip count
`usub n r - r` is `0`) and the result is exactly the two end-plateau
passes applied to the untouched input, with the two plateaus
overlapping; but when `n < r` the `unsigned` bound `n - r` wraps around
and the centered pass reads out of bounds (see the counterexample). -/
theorem C4_end_passes_only (X : List D) (r : Nat) (h0 : X ≠ []) (h1 : 0 < r)
    (h2 : r ≤ X.length) (h3 : X.length < 2 * r) (h4 : X.length < 2 ^ 32) :
    usub X.length r - r = 0 ∧
    average_vector X r = Option.map (fun Y => (true, Y)) (end_passes X r) := by
  have hu : usub X.length r = X.length - r := usub_eq _ _ h2 h4
  have hf : usub X.length r - r = 0 := by omega
  refine ⟨hf, ?_⟩
  have hne : ¬(X.isEmpty = true ∨ r = 0) := by
    rintro (h | h)
    · exact h0 (List.isEmpty_iff.mp h)
    · omega
  rw [average_vector_pos X r hne, hf, end_passes]
  rw [show center_loop r 0 r X = some X from rfl]
  simp only [Option.bind_eq_bind, Option.some_bind, Option.pure_def]
  cases range_sum X 0 r with
  | none => rfl
  | some sL =>
      simp only [Option.some_bind]
      cases range_sum (fill_range X 0 r (sL / (r : D))) (usub X.length r)
          (X.length - usub X.length r) with
      | none => rfl
      | some sR => rfl

/-- Witness for C4's amended theorem at `X = [1, 2, 3]`, `r = 2`. -/
theorem C4_end_passes_only_witness :
    (([1, 2, 3] : List D) ≠ [] ∧ 0 < 2 ∧ 2 ≤ ([1, 2, 3] : List D).length ∧
      ([1, 2, 3] : List D).length < 2 * 2 ∧ ([1, 2, 3] : List D).length < 2 ^ 32) ∧
    (usub ([1, 2, 3] : List D).length 2 - 2 = 0 ∧
      average_vector [1, 2, 3] 2 = Option.map (fun Y => (true, Y)) (end_passes [1, 2, 3] 2)) :=
  ⟨⟨by simp, by decide, by decide, by decide, by decide⟩,
   C4_end_passes_only [1, 2, 3] 2 (by simp) (by decide) (by decide) (by decide) (by decide)⟩

/-! ## Claim C10: dependence of read_spectrum on prior buffer contents -/

lemma fs_reset (fs0 : List D) (pixels : Nat) (h : fs0.length = pixels ∨ fs0 = []) :
    (if fs0.length ≠ pixels then cpp_resize fs0 pixels else List.replicate pixels 0) =
      List.replicate pixels 0 := by
  rcases h with h | h
  · rw [if_neg (by omega)]
  · subst h
    by_cases hp : (([] : List D)).length ≠ pixels
    · rw [if_pos hp, cpp_resize, if_pos (by simp at hp ⊢; omega)]
      simp
    · rw [if_neg hp]

lemma buf_reset_length (buf0 : List D) (pixels : Nat) :
    ((if buf0.length ≠ pixels then cpp_resize buf0 pixels else buf0)).length = pixels := by
  by_cases h : buf0.length ≠ pixels
  · rw [if_pos h, cpp_resize]
    by_cases h2 : buf0.length < pixels
    · rw [if_pos h2]; simp; omega
    · rw [if_neg h2]; simp; omega
  · rw [if_neg h]; omega

lemma scan_loop_buf_irrel (serial : List Char) (pixels : Nat) (scans : List (List D))
    (fs buf buf2 : List D) (h : buf.length ≤ pixels) (h2 : buf2.length ≤ pixels) :
    scan_loop serial pixels scans fs buf = scan_loop serial pixels scans fs buf2 := by
  cases scans with
  | nil => rfl
  | cons s rest =>
      rw [scan_loop, scan_loop, List.drop_eq_nil_of_le h, List.drop_eq_nil_of_le h2]

/-- C10 amended: the spectrum produced by `read_spectrum` depends only on
`pixels`, the delivered scan values, the number of scans and the boxcar
radius, **provided** the prior `formatted_spectrum` is either empty or
already of length `pixels` — those are exactly the cases the code resets
to all zeros; the prior scratch-buffer contents never matter.  (When the
prior `formatted_spectrum` has a different non-zero length, `resize`
keeps its stale prefix and the spectra can differ — see the
counterexample.) -/
theorem C10_reset_determinism (serial : List Char) (pixels : Nat) (scans : List (List D))
    (boxcar : Nat) (fs0 buf0 fs1 buf1 : List D)
    (h : fs0.length = pixels ∨ fs0 = []) (h2 : fs1.length = pixels ∨ fs1 = []) :
    read_spectrum serial pixels scans boxcar fs0 buf0 =
      read_spectrum serial pixels scans boxcar fs1 buf1 := by
  rw [read_spectrum, read_spectrum, fs_reset fs0 pixels h, fs_reset fs1 pixels h2,
    scan_loop_buf_irrel serial pixels scans (List.replicate pixels 0)
      (if buf0.length ≠ pixels then cpp_resize buf0 pixels else buf0)
      (if buf1.length ≠ pixels then cpp_resize buf1 pixels else buf1)
      (le_of_eq (buf_reset_length buf0 pixels)) (le_of_eq (buf_reset_length buf1 pixels))]

/-- Witness for C10's amended theorem: same scans, different prior
scratch buffers, prior spectra of length `pixels` and empty. -/
theorem C10_reset_determinism_witness :
    ((([7, 8] : List D)).length = 2 ∨ ([7, 8] : List D) = []) ∧
    ((([] : List D)).length = 2 ∨ ([] : List D) = []) ∧
    read_spectrum ['X'] 2 [[1, 1]] 0 [7, 8] [9] =
      read_spectrum ['X'] 2 [[1, 1]] 0 [] [1, 2, 3] :=
  ⟨Or.inl (by simp), Or.inr rfl,
   C10_reset_determinism ['X'] 2 [[1, 1]] 0 [7, 8] [9] [] [1, 2, 3]
     (Or.inl (by simp)) (Or.inr rfl)⟩

/-- C10 counterexample to the claim as stated: with `pixels = 2`, one
delivered scan `[1, 1]`, no smoothing, a prior `formatted_spectrum` of
`[5]` (wrong length, so `resize` keeps the stale `5`) yields `[6, 1]`,
while a prior empty `formatted_spectrum` yields `[1, 1]` — two calls
differing only in the prior accumulator contents produce different
spectra, so the buffer is not reset to all zeros whenever its length
differs from `pixels`. -/
theorem C10_counterexample :
    read_spectrum ['X'] 2 [[1, 1]] 0 [5] [] = some [6, 1] ∧
    read_spectrum ['X'] 2 [[1, 1]] 0 [] [] = some [1, 1] ∧
    read_spectrum ['X'] 2 [[1, 1]] 0 [5] [] ≠ read_spectrum ['X'] 2 [[1, 1]] 0 [] [] := by
  have hne : (['X'] : List Char) ≠ flms_serial := by decide
  have hA : read_spectrum ['X'] 2 [[1, 1]] 0 [5] [] = some [6, 1] := by
    norm_num [read_spectrum, cpp_resize, scan_loop, acc_loop, mul_loop,
      repair_false_pixels, hne, average_vector, List.replicate]
  have hB : read_spectrum ['X'] 2 [[1, 1]] 0 [] [] = some [1, 1] := by
    norm_num [read_spectrum, cpp_resize, scan_loop, acc_loop, mul_loop,
      repair_false_pixels, hne, average_vector, List.replicate]
  refine ⟨hA, hB, ?_⟩
  rw [hA, hB]
  intro hcon
  norm_num at hcon
